import Mathlib

/-!
Verification of `protobuf_distutils` root-path resolution and file enumeration.

Shallow embedding of the Python sources
`python/protobuf_distutils/protobuf_distutils/protoc_command_base.py` and
`python/protobuf_distutils/protobuf_distutils/generate_py_protobufs.py`.

Python strings are modelled as `List Char` (`PyStr`).  The POSIX path
separator is the fixed character `/`, matching `os.path.sep` on the platforms
the spec describes.  The filesystem visible to `glob` is modelled as a finite
list of regular-file paths given as component lists; `os.path.isdir` and
`os.path.exists` are modelled as oracles in an `Env` record, since the code
consults them only as black boxes.
-/

/-- A Python `str`, modelled as a list of characters. -/
abbrev PyStr := List Char

/-- The character `os.path.sep` on POSIX. -/
def sep : Char := '/'

/-- The component `"."`. -/
def dotC : PyStr := ['.']

/-- The component `".."`. -/
def dotdotC : PyStr := ['.', '.']

/-- Python `s.startswith(p)`: `p` is a string prefix of `s`. -/
def strStarts (p s : PyStr) : Bool := List.isPrefixOf p s

theorem strStarts_iff {p s : PyStr} : strStarts p s = true ↔ p <+: s := by
  unfold strStarts
  exact List.isPrefixOf_iff_prefix

/-- Python `path.split('/')`: split on every separator occurrence, keeping
empty components (`"a//b".split('/') == ['a', '', 'b']`). -/
def splitSep : PyStr → List PyStr
  | [] => [[]]
  | c :: rest =>
      let r := splitSep rest
      if c = sep then [] :: r
      else
        match r with
        | [] => [[c]]
        | p :: ps => (c :: p) :: ps

/-- Model of `os.path.normpath` (POSIX `posixpath.normpath`): collapse empty and `.`
components, resolve `..` against preceding components, and preserve the
one-or-two leading slashes convention. -/
def normpath (path : PyStr) : PyStr :=
  if path = [] then dotC
  else
    let initialSlashes : Nat :=
      if strStarts [sep] path then
        if strStarts [sep, sep] path ∧ ¬ strStarts [sep, sep, sep] path then 2 else 1
      else 0
    let comps := splitSep path
    let newComps := comps.foldl
      (fun acc comp =>
        if comp = [] ∨ comp = dotC then acc
        else if comp ≠ dotdotC ∨ (initialSlashes = 0 ∧ acc = []) ∨
                (acc ≠ [] ∧ acc.getLast? = some dotdotC) then acc ++ [comp]
        else if acc ≠ [] then acc.dropLast
        else acc)
      []
    let joined := List.intercalate [sep] newComps
    let out := List.replicate initialSlashes sep ++ joined
    if out = [] then dotC else out

/-- One iteration of the loop in `ProtocCommandBase.compute_proto_root_path`
(protoc_command_base.py lines 178-182): normalize the candidate and take it as
the new root when the current root starts with it. -/
def rootStep (cur cand : PyStr) : PyStr :=
  if strStarts (normpath cand) cur then normpath cand else cur

/-- Model of `ProtocCommandBase.compute_proto_root_path`
(protoc_command_base.py lines 177-184). -/
def compute_proto_root_path (source_dir : PyStr)
    (proto_paths extra_proto_paths : List PyStr) : PyStr :=
  (proto_paths ++ extra_proto_paths).foldl rootStep (normpath source_dir)

/-- The normalized candidates that are string-prefixes of `target`
(specification-side description used to characterize the loop above). -/
def matchingRoots (target : PyStr) (cands : List PyStr) : List PyStr :=
  (cands.map normpath).filter (fun c => strStarts c target)

/-- Index of the first occurrence of `pat` in `s`, as in Python `s.find(pat)`
for a nonempty `pat`. -/
def firstOccur (s pat : PyStr) : Option Nat :=
  (List.range (s.length + 1)).find? (fun i => strStarts pat (s.drop i))

/-- Python `s.partition(pat)` for a nonempty `pat`: split at the first
occurrence of `pat`; when `pat` does not occur, return `(s, '', '')`. -/
def pyPartition (s pat : PyStr) : PyStr × PyStr × PyStr :=
  match firstOccur s pat with
  | some i => (s.take i, pat, s.drop (i + pat.length))
  | none => (s, [], [])

/-- Directory components denoted by a path string, for locating it in the
modelled filesystem: split on `/` and drop empty and `.` components (the OS
resolves those away; `..` components are outside the model's scope). -/
def dirComps (s : PyStr) : List PyStr :=
  (splitSep s).filter (fun c => !(c = [] ∨ c = dotC : Bool))

/-- Model of `os.path.join(a, b)` (POSIX, one extra argument). -/
def pyJoin (a b : PyStr) : PyStr :=
  if strStarts [sep] b then b
  else if a = [] ∨ a.getLast? = some sep then a ++ b
  else a ++ sep :: b

/-- The fixed extension pattern suffix `.proto`. -/
def protoExt : PyStr := ".proto".toList

/-- Whether a single name matches the glob pattern `*.proto`: ends with
`.proto`, and is not hidden (glob's `*` never matches names starting with a
dot). -/
def matchProtoName (n : PyStr) : Bool :=
  !(strStarts dotC n) && List.isSuffixOf protoExt n

/-- How a single filesystem entry answers the glob pattern
`os.path.join(source_dir, '*.proto')`: it must be a direct child of
`source_dir` whose name matches `*.proto`; the produced string keeps the
`source_dir` text as written, as `glob` does. -/
def globDirectEntry (src : PyStr) (f : List PyStr) : Option PyStr :=
  if List.isPrefixOf (dirComps src) f then
    match f.drop (dirComps src).length with
    | [n] => if matchProtoName n then some (pyJoin src n) else none
    | _ => none
  else none

/-- Model of `glob.glob(os.path.join(source_dir, '*.proto'))` over the modelled
filesystem. -/
def globDirect (fs : List (List PyStr)) (src : PyStr) : List PyStr :=
  fs.filterMap (globDirectEntry src)

/-- How a single filesystem entry answers the glob pattern
`os.path.join(source_dir, '**', '*.proto')` as the code calls it, i.e.
WITHOUT `recursive=True`: `**` degenerates to `*` and matches exactly one
(non-hidden) directory component. -/
def globOneLevelEntry (src : PyStr) (f : List PyStr) : Option PyStr :=
  if List.isPrefixOf (dirComps src) f then
    match f.drop (dirComps src).length with
    | [d, n] =>
        if !(strStarts dotC d) && matchProtoName n then
          some (pyJoin (pyJoin src d) n)
        else none
    | _ => none
  else none

/-- Model of `glob.glob(os.path.join(source_dir, '**', '*.proto'))` (no
`recursive=True`) over the modelled filesystem. -/
def globOneLevel (fs : List (List PyStr)) (src : PyStr) : List PyStr :=
  fs.filterMap (globOneLevelEntry src)

/-- The `files` list assembled in `ProtocCommandBase.find_proto_files`
(protoc_command_base.py lines 189-192). -/
def globFiles (fs : List (List PyStr)) (src : PyStr) (recurse : Bool) : List PyStr :=
  globDirect fs src ++ (if recurse then globOneLevel fs src else [])

/-- Model of `ProtocCommandBase.find_proto_files`
(protoc_command_base.py lines 186-198): glob, then rewrite each path with
`f.partition(self.proto_root_path + os.path.sep)[-1]`. -/
def find_proto_files (fs : List (List PyStr)) (source_dir : PyStr)
    (recurse : Bool) (proto_root_path : PyStr) : List PyStr :=
  (globFiles fs source_dir recurse).map
    (fun f => (pyPartition f (proto_root_path ++ [sep])).2.2)

/-- The parts of the OS and build environment the command consults.
`isdir` models `os.path.isdir`, `pathExists` models `os.path.exists`,
`fs` is the regular-file listing seen by `glob`, `build_ext_include_dirs`
is the value inherited through `set_undefined_options('build_ext', ...)`,
`protoc_env` is `os.getenv('PROTOC')`, and `path_protoc` is the executable
found by `distutils.spawn.find_executable('protoc')`. -/
structure Env where
  isdir : PyStr → Bool
  pathExists : PyStr → Bool
  fs : List (List PyStr)
  build_ext_include_dirs : Option (List PyStr)
  protoc_env : Option PyStr
  path_protoc : PyStr

/-- The option fields set in `ProtocCommandBase.initialize_options` as they
stand when `finalize_options` begins (after command-line processing). -/
structure Options where
  source_dir : PyStr
  output_dir : PyStr
  proto_root_path : Option PyStr
  include_dirs : Option (List PyStr)
  proto_paths : List PyStr
  extra_proto_paths : List PyStr
  proto_files : Option (List PyStr)
  recurse : Option Bool
  protoc : Option PyStr

/-- The loop body of `ProtocCommandBase.ensure_proto_path_list`
(protoc_command_base.py lines 124-131): an entry is invalid when it has no
`=` and is not a directory, or has an `=` and its real path does not exist. -/
def entryInvalid (env : Env) (p : PyStr) : Bool :=
  let parts := pyPartition p ['=']
  if parts.2.1 = [] then !(env.isdir p) else !(env.pathExists parts.2.2)

/-- The `invalid_paths` list collected by `ensure_proto_path_list`
(protoc_command_base.py lines 123-131). -/
def invalidProtoPaths (env : Env) (value : List PyStr) : List PyStr :=
  value.filter (entryInvalid env)

/-- The value of `self.include_dirs` after `set_undefined_options('build_ext', ...)`
(protoc_command_base.py lines 75-78). -/
def mergedIncludeDirs (env : Env) (o : Options) : Option (List PyStr) :=
  match o.include_dirs with
  | some d => some d
  | none => env.build_ext_include_dirs

/-- The value of `self.proto_paths` after the include-dirs merge
(protoc_command_base.py lines 83-85). -/
def mergedProtoPaths (env : Env) (o : Options) : List PyStr :=
  match mergedIncludeDirs env o with
  | some d => d ++ o.proto_paths
  | none => o.proto_paths

/-- The invalid entries of include_dirs, when include_dirs is set
(protoc_command_base.py lines 83-84). -/
def incBad (env : Env) (o : Options) : List PyStr :=
  match mergedIncludeDirs env o with
  | some d => invalidProtoPaths env d
  | none => []

/-- The value of `self.proto_root_path` as it stands at the line-99 check: the explicit
override when given, otherwise `compute_proto_root_path`
(protoc_command_base.py lines 90-92). -/
def resolvedRoot (env : Env) (o : Options) : PyStr :=
  match o.proto_root_path with
  | some r => r
  | none => compute_proto_root_path o.source_dir (mergedProtoPaths env o) o.extra_proto_paths

/-- The `DistutilsOptionError` variants `finalize_options` can raise: a
directory option that fails `ensure_dirname`, an invalid `--proto_path` list
(`ensure_proto_path_list`, lines 133-135), or the explicit source-not-under-
root rejection (lines 99-102).  Every variant is one `DistutilsOptionError`. -/
inductive FinalizeError where
  | notADir (optName : PyStr) (val : PyStr)
  | invalidPathList (optName : PyStr) (bad : List PyStr)
  | sourceNotUnderRoot (src root : PyStr)
deriving DecidableEq

/-- The command state after a successful `finalize_options`. -/
structure Finalized where
  source_dir : PyStr
  output_dir : PyStr
  proto_root_path : PyStr
  proto_paths : List PyStr
  extra_proto_paths : List PyStr
  proto_files : List PyStr
  recurse : Bool
  protoc : Option PyStr
  warned_no_files : Bool
deriving DecidableEq

/-- The final `proto_files` value and whether the zero-files warning fires
(protoc_command_base.py lines 107-110): when `proto_files` was not supplied,
it is discovered by `find_proto_files` (with `recurse` already defaulted to
`True`, lines 104-105) and the warning fires exactly when the list is empty. -/
def finalProtoFiles (env : Env) (o : Options) : List PyStr × Bool :=
  match o.proto_files with
  | some fl => (fl, false)
  | none =>
      let fl := find_proto_files env.fs o.source_dir (o.recurse.getD true) (resolvedRoot env o)
      (fl, fl.isEmpty)

/-- Model of `ProtocCommandBase.finalize_options` (protoc_command_base.py lines
68-113), with each raise modelled as `Except.error` and the zero-files
warning recorded in `warned_no_files`. -/
def finalize_options (env : Env) (o : Options) : Except FinalizeError Finalized :=
  if env.isdir o.source_dir = false then
    Except.error (FinalizeError.notADir ("source_dir".toList) o.source_dir)
  else if env.isdir o.output_dir = false then
    Except.error (FinalizeError.notADir ("output_dir".toList) o.output_dir)
  else if incBad env o ≠ [] then
    Except.error (FinalizeError.invalidPathList ("include_dirs".toList) (incBad env o))
  else if invalidProtoPaths env (mergedProtoPaths env o) ≠ [] then
    Except.error (FinalizeError.invalidPathList ("proto_paths".toList)
      (invalidProtoPaths env (mergedProtoPaths env o)))
  else if invalidProtoPaths env o.extra_proto_paths ≠ [] then
    Except.error (FinalizeError.invalidPathList ("extra_proto_paths".toList)
      (invalidProtoPaths env o.extra_proto_paths))
  else if env.isdir (resolvedRoot env o) = false then
    Except.error (FinalizeError.notADir ("proto_root_path".toList) (resolvedRoot env o))
  else if strStarts (resolvedRoot env o) o.source_dir = false then
    Except.error (FinalizeError.sourceNotUnderRoot o.source_dir (resolvedRoot env o))
  else
    Except.ok {
      source_dir := o.source_dir
      output_dir := o.output_dir
      proto_root_path := resolvedRoot env o
      proto_paths := mergedProtoPaths env o
      extra_proto_paths := o.extra_proto_paths
      proto_files := (finalProtoFiles env o).1
      recurse := o.recurse.getD true
      protoc := (match o.protoc with | some p => some p | none => env.protoc_env)
      warned_no_files := (finalProtoFiles env o).2 }

/-- Model of `generate_py_protobufs.finalize_options` (generate_py_protobufs.py lines
57-69): the base finalization, then every extra proto path is appended to
`proto_paths`, then `output_dir` is checked again. -/
def gen_finalize (env : Env) (o : Options) : Except FinalizeError Finalized :=
  match finalize_options env o with
  | Except.error e => Except.error e
  | Except.ok st =>
      if env.isdir st.output_dir = false then
        Except.error (FinalizeError.notADir ("output_dir".toList) st.output_dir)
      else
        Except.ok { st with proto_paths := st.proto_paths ++ st.extra_proto_paths }

/-- The string `--proto_path=`. -/
def protoPathFlag : PyStr := "--proto_path=".toList

/-- The string `--python_out=`. -/
def protoPythonOut : PyStr := "--python_out=".toList

/-- The executable actually spawned: `self.protoc`, falling back to
`find_executable('protoc')` (protoc_command_base.py lines 215-216). -/
def resolveProtoc (env : Env) (st : Finalized) : PyStr :=
  match st.protoc with
  | some p => p
  | none => env.path_protoc

/-- The argument list `ProtocCommandBase.run_protoc` passes to `spawn`
(protoc_command_base.py lines 200-219):
`[self.protoc] + ['--proto_path=' + x for x in [root] + proto_paths] + args
 + self.proto_files`. -/
def run_protoc_argv (env : Env) (st : Finalized) (args : List PyStr) : List PyStr :=
  let proto_path_flags :=
    ([st.proto_root_path] ++ st.proto_paths).map (fun x => protoPathFlag ++ x)
  [resolveProtoc env st] ++ proto_path_flags ++ args ++ st.proto_files

/-- Model of `generate_py_protobufs.run` (generate_py_protobufs.py lines 71-72):
`run_protoc` with `args=['--python_out=' + self.output_dir]`. -/
def gen_run (env : Env) (st : Finalized) : List PyStr :=
  run_protoc_argv env st [protoPythonOut ++ st.output_dir]

/-- The whole command pipeline: finalize the options, and only on success
assemble the external-process argument list (no process is ever started on
the error path). -/
def generate_py_pipeline (env : Env) (o : Options) : Except FinalizeError (List PyStr) :=
  match gen_finalize env o with
  | Except.error e => Except.error e
  | Except.ok st => Except.ok (gen_run env st)

/-- An all-permissive environment used to instantiate theorems at concrete
inputs: every path is a directory and exists, the disk is empty. -/
def envAll : Env where
  isdir := fun _ => true
  pathExists := fun _ => true
  fs := []
  build_ext_include_dirs := none
  protoc_env := none
  path_protoc := "/usr/bin/protoc".toList

/-- The option state right after `initialize_options`, with a source
directory supplied (as `setup.py` must do). -/
def oDefault : Options where
  source_dir := "s".toList
  output_dir := ".".toList
  proto_root_path := none
  include_dirs := none
  proto_paths := []
  extra_proto_paths := []
  proto_files := none
  recurse := none
  protoc := none

/-- An environment in which exactly the path `bad` is missing from disk. -/
def envSel : Env :=
  { envAll with isdir := fun p => !(p == "bad".toList) }

section RootPathLemmas

/-- Invariant of the loop in `compute_proto_root_path`: starting from any
string-prefix `cur` of the target, the fold result is a prefix of `cur`, is
either `cur` itself or one of the matching normalized candidates, and is a
prefix of every matching normalized candidate. -/
theorem rootFold_spec (N : PyStr) :
    ∀ (l : List PyStr) (cur : PyStr), cur <+: N →
      (l.foldl rootStep cur) <+: cur
      ∧ (l.foldl rootStep cur = cur ∨ l.foldl rootStep cur ∈ matchingRoots N l)
      ∧ (∀ c ∈ matchingRoots N l, l.foldl rootStep cur <+: c) := by
  intro l
  induction l with
  | nil =>
      intro cur hcur
      refine ⟨List.prefix_refl cur, Or.inl rfl, ?_⟩
      intro c hc
      simp [matchingRoots] at hc
  | cons cand rest ih =>
      intro cur hcur
      by_cases hstep : strStarts (normpath cand) cur = true
      · have hpc : normpath cand <+: cur := strStarts_iff.mp hstep
        have hpN : normpath cand <+: N := hpc.trans hcur
        have hfold : (cand :: rest).foldl rootStep cur = rest.foldl rootStep (normpath cand) := by
          simp [List.foldl_cons, rootStep, hstep]
        obtain ⟨h1, h2, h3⟩ := ih (normpath cand) hpN
        have hmem : matchingRoots N (cand :: rest)
            = normpath cand :: matchingRoots N rest := by
          simp [matchingRoots, strStarts_iff.mpr hpN]
        refine ⟨?_, ?_, ?_⟩
        · rw [hfold]; exact h1.trans hpc
        · rw [hfold, hmem]
          rcases h2 with h2 | h2
          · exact Or.inr (by rw [h2]; exact List.mem_cons_self _ _)
          · exact Or.inr (List.mem_cons_of_mem _ h2)
        · rw [hfold, hmem]
          intro c hc
          rcases List.mem_cons.mp hc with hc | hc
          · rw [hc]; exact h1
          · exact h3 c hc
      · have hfold : (cand :: rest).foldl rootStep cur = rest.foldl rootStep cur := by
          simp only [List.foldl_cons, rootStep]
          rw [if_neg (by simpa using hstep)]
        obtain ⟨h1, h2, h3⟩ := ih cur hcur
        refine ⟨?_, ?_, ?_⟩
        · rw [hfold]; exact h1
        · rw [hfold]
          rcases h2 with h2 | h2
          · exact Or.inl h2
          · refine Or.inr ?_
            simp only [matchingRoots] at h2 ⊢
            simp only [List.map_cons, List.filter_cons]
            rcases hmatch : strStarts (normpath cand) N with _ | _
            · simpa [hmatch] using h2
            · simp only [hmatch, if_pos rfl]
              exact List.mem_cons_of_mem _ h2
        · rw [hfold]
          intro c hc
          simp only [matchingRoots, List.map_cons, List.filter_cons] at hc
          rcases hmatch : strStarts (normpath cand) N with _ | _
          · rw [hmatch] at hc
            simp only [Bool.false_eq_true, if_false] at hc
            exact h3 c hc
          · rw [hmatch] at hc
            simp only [if_pos rfl] at hc
            rcases List.mem_cons.mp hc with hc | hc
            · have hcN : normpath cand <+: N := strStarts_iff.mp hmatch
              rcases List.prefix_or_prefix_of_prefix hcN hcur with hco | hoc
              · exact absurd (strStarts_iff.mpr hco) (by simpa using hstep)
              · rw [hc]; exact h1.trans hoc
            · exact h3 c hc

/-- Characterization of `compute_proto_root_path`: the result is a prefix of
the normalized source; it equals the normalized source when no normalized
candidate is a prefix of it; otherwise it is the (unique) shortest matching
normalized candidate. -/
theorem computeRoot_spec (source : PyStr) (pp extra : List PyStr) :
    compute_proto_root_path source pp extra <+: normpath source
    ∧ (matchingRoots (normpath source) (pp ++ extra) = [] →
        compute_proto_root_path source pp extra = normpath source)
    ∧ (∀ c ∈ matchingRoots (normpath source) (pp ++ extra),
        compute_proto_root_path source pp extra ∈ matchingRoots (normpath source) (pp ++ extra)
        ∧ (compute_proto_root_path source pp extra).length ≤ c.length) := by
  obtain ⟨h1, h2, h3⟩ :=
    rootFold_spec (normpath source) (pp ++ extra) (normpath source)
      (List.prefix_refl _)
  simp only [compute_proto_root_path]
  refine ⟨h1, ?_, ?_⟩
  · intro hnil
    rcases h2 with h2 | h2
    · exact h2
    · rw [hnil] at h2; exact absurd h2 (List.not_mem_nil _)
  · intro c hc
    have hcN : c <+: normpath source := by
      have hc' : c ∈ ((pp ++ extra).map normpath).filter
          (fun x => strStarts x (normpath source)) := hc
      exact strStarts_iff.mp (List.mem_filter.mp hc').2
    rcases h2 with h2 | h2
    · have hNc : normpath source <+: c := by rw [← h2]; exact h3 c hc
      have hceq : c = normpath source := List.IsPrefix.eq_of_length_le hcN hNc.length_le
      rw [h2]
      exact ⟨hceq ▸ hc, le_of_eq (congrArg List.length hceq.symm)⟩
    · exact ⟨h2, (h3 c hc).length_le⟩

end RootPathLemmas

/-- Claim C1: for every source directory and ordered candidate list,
`compute_proto_root_path` returns the shortest normalized candidate that is a
string-prefix of the normalized source directory, returns the normalized
source directory itself when no candidate is such a prefix, and in all cases
the returned root is a string-prefix of the normalized source directory. -/
theorem c1_compute_root_shortest_matching_candidate
    (source : PyStr) (pp extra : List PyStr) :
    compute_proto_root_path source pp extra <+: normpath source
    ∧ (matchingRoots (normpath source) (pp ++ extra) = [] →
        compute_proto_root_path source pp extra = normpath source)
    ∧ (∀ c ∈ matchingRoots (normpath source) (pp ++ extra),
        compute_proto_root_path source pp extra ∈ matchingRoots (normpath source) (pp ++ extra)
        ∧ (compute_proto_root_path source pp extra).length ≤ c.length) :=
  computeRoot_spec source pp extra

/-- Claim C1 witness: on the spec's own example the theorem yields that the
computed root `a/b` is a matching candidate of minimal length and a prefix of
the normalized source. -/
theorem c1_compute_root_witness :
    compute_proto_root_path ("a/b/c".toList) ["a/b".toList, "x/y".toList] []
        <+: normpath ("a/b/c".toList)
    ∧ compute_proto_root_path ("a/b/c".toList) ["a/b".toList, "x/y".toList] []
        ∈ matchingRoots (normpath ("a/b/c".toList)) (["a/b".toList, "x/y".toList] ++ [])
    ∧ (compute_proto_root_path ("a/b/c".toList) ["a/b".toList, "x/y".toList] []).length
        ≤ ("a/b".toList).length :=
  ⟨(c1_compute_root_shortest_matching_candidate ("a/b/c".toList)
      ["a/b".toList, "x/y".toList] []).1,
   ((c1_compute_root_shortest_matching_candidate ("a/b/c".toList)
      ["a/b".toList, "x/y".toList] []).2.2 ("a/b".toList) (by decide)).1,
   ((c1_compute_root_shortest_matching_candidate ("a/b/c".toList)
      ["a/b".toList, "x/y".toList] []).2.2 ("a/b".toList) (by decide)).2⟩

/-- Claim C9: the result of `compute_proto_root_path` is invariant under every
permutation of the combined candidate list. -/
theorem c9_compute_root_permutation_invariant
    (source : PyStr) (pp1 ex1 pp2 ex2 : List PyStr)
    (h : (pp1 ++ ex1).Perm (pp2 ++ ex2)) :
    compute_proto_root_path source pp1 ex1 = compute_proto_root_path source pp2 ex2 := by
  have hM : (matchingRoots (normpath source) (pp1 ++ ex1)).Perm
      (matchingRoots (normpath source) (pp2 ++ ex2)) :=
    (h.map normpath).filter _
  obtain ⟨ha1, ha2, ha3⟩ := computeRoot_spec source pp1 ex1
  obtain ⟨hb1, hb2, hb3⟩ := computeRoot_spec source pp2 ex2
  rcases hnil : matchingRoots (normpath source) (pp1 ++ ex1) with _ | ⟨c, cs⟩
  · have hnil2 : matchingRoots (normpath source) (pp2 ++ ex2) = [] := by
      rw [hnil] at hM
      exact hM.symm.eq_nil
    rw [ha2 hnil, hb2 hnil2]
  · have hc1 : c ∈ matchingRoots (normpath source) (pp1 ++ ex1) := by
      rw [hnil]; exact List.mem_cons_self _ _
    have hc2 : c ∈ matchingRoots (normpath source) (pp2 ++ ex2) := hM.mem_iff.mp hc1
    obtain ⟨hmem1, _⟩ := ha3 c hc1
    obtain ⟨hmem2, _⟩ := hb3 c hc2
    have hmem2' : compute_proto_root_path source pp2 ex2
        ∈ matchingRoots (normpath source) (pp1 ++ ex1) := hM.mem_iff.mpr hmem2
    have hmem1' : compute_proto_root_path source pp1 ex1
        ∈ matchingRoots (normpath source) (pp2 ++ ex2) := hM.mem_iff.mp hmem1
    have hlen12 : (compute_proto_root_path source pp1 ex1).length
        ≤ (compute_proto_root_path source pp2 ex2).length :=
      (ha3 _ hmem2').2
    have hp1 : compute_proto_root_path source pp1 ex1 <+: normpath source := ha1
    have hp2 : compute_proto_root_path source pp2 ex2 <+: normpath source := hb1
    rcases List.prefix_or_prefix_of_prefix hp1 hp2 with hpo | hpo
    · exact List.IsPrefix.eq_of_length_le hpo ((hb3 _ hmem1').2)
    · exact (List.IsPrefix.eq_of_length_le hpo hlen12).symm

/-- Claim C9 witness: a concrete permutation of two singleton candidate
lists yields the same computed root. -/
theorem c9_compute_root_permutation_witness :
    compute_proto_root_path ("s".toList) ["q".toList] ["r".toList]
      = compute_proto_root_path ("s".toList) ["r".toList] ["q".toList] :=
  c9_compute_root_permutation_invariant ("s".toList) ["q".toList] ["r".toList]
    ["r".toList] ["q".toList] (by decide)

section FindProtoLemmas

theorem pyPartition_third_of_none {s pat : PyStr} (h : firstOccur s pat = none) :
    (pyPartition s pat).2.2 = [] := by
  simp [pyPartition, h]

theorem pyPartition_third_of_some {s pat : PyStr} {i : Nat}
    (h : firstOccur s pat = some i) :
    (pyPartition s pat).2.2 = s.drop (i + pat.length) := by
  simp [pyPartition, h]

/-- When `pat` is a string-prefix of `s`, its first occurrence is at index 0. -/
theorem firstOccur_zero {s pat : PyStr} (h : strStarts pat s = true) :
    firstOccur s pat = some 0 := by
  unfold firstOccur
  rw [List.range_succ_eq_map]
  exact List.find?_cons_of_pos _ (by simpa using h)

/-- Membership characterization of the non-recursive `*.proto` glob. -/
theorem globDirect_mem_iff {fs : List (List PyStr)} {src f : PyStr} :
    f ∈ globDirect fs src ↔
      ∃ n : PyStr, dirComps src ++ [n] ∈ fs ∧ matchProtoName n = true
        ∧ f = pyJoin src n := by
  unfold globDirect
  rw [List.mem_filterMap]
  constructor
  · rintro ⟨a, ha, hfa⟩
    by_cases hp : List.isPrefixOf (dirComps src) a = true
    · rw [globDirectEntry, if_pos hp] at hfa
      rcases hd : a.drop (dirComps src).length with _ | ⟨n, _ | ⟨m, rest⟩⟩
      · rw [hd] at hfa; exact absurd hfa (by simp)
      · rw [hd] at hfa
        have hfa' : (if matchProtoName n = true then some (pyJoin src n) else none)
            = some f := hfa
        by_cases hm : matchProtoName n = true
        · rw [if_pos hm] at hfa'
          have hpre : dirComps src <+: a := List.isPrefixOf_iff_prefix.mp hp
          have htake : dirComps src = a.take (dirComps src).length :=
            List.prefix_iff_eq_take.mp hpre
          have ha2 : a = dirComps src ++ [n] := by
            conv_lhs => rw [← List.take_append_drop (dirComps src).length a]
            rw [← htake, hd]
          exact ⟨n, ha2 ▸ ha, hm, (Option.some.inj hfa').symm⟩
        · rw [if_neg hm] at hfa'; exact absurd hfa' (by simp)
      · rw [hd] at hfa; exact absurd hfa (by simp)
    · rw [globDirectEntry, if_neg hp] at hfa
      exact absurd hfa (by simp)
  · rintro ⟨n, hmem, hmatch, hf⟩
    refine ⟨dirComps src ++ [n], hmem, ?_⟩
    have hp : List.isPrefixOf (dirComps src) (dirComps src ++ [n]) = true :=
      List.isPrefixOf_iff_prefix.mpr (List.prefix_append _ _)
    rw [globDirectEntry, if_pos hp, List.drop_left]
    show (if matchProtoName n = true then some (pyJoin src n) else none) = some f
    rw [if_pos hmatch, hf]

/-- An entry that is not a direct child of the source directory never answers
the non-recursive glob. -/
theorem globDirectEntry_none {src : PyStr} {g : List PyStr}
    (h : ∀ n : PyStr, g ≠ dirComps src ++ [n]) :
    globDirectEntry src g = none := by
  unfold globDirectEntry
  by_cases hp : List.isPrefixOf (dirComps src) g = true
  · rw [if_pos hp]
    rcases hd : g.drop (dirComps src).length with _ | ⟨n, _ | ⟨m, rest⟩⟩
    · rfl
    · have hpre : dirComps src <+: g := List.isPrefixOf_iff_prefix.mp hp
      have htake : dirComps src = g.take (dirComps src).length :=
        List.prefix_iff_eq_take.mp hpre
      have hg2 : g = dirComps src ++ [n] := by
        conv_lhs => rw [← List.take_append_drop (dirComps src).length g]
        rw [← htake, hd]
      exact absurd hg2 (h n)
    · rfl
  · rw [if_neg hp]

end FindProtoLemmas

/-- Claim C10: each discovered path is rewritten to everything after the
FIRST occurrence of `proto_root_path + os.path.sep` anywhere in the path (not
only at its start), and a discovered path with no occurrence at all is
rewritten to the empty string, not left unchanged. -/
theorem c10_rewrite_after_first_occurrence_anywhere
    (fs : List (List PyStr)) (src : PyStr) (recurse : Bool) (root : PyStr) :
    find_proto_files fs src recurse root
      = (globFiles fs src recurse).map (fun f =>
          match firstOccur f (root ++ [sep]) with
          | some i => f.drop (i + (root ++ [sep]).length)
          | none => [])
    ∧ (∀ f : PyStr, f ∈ globFiles fs src recurse →
        firstOccur f (root ++ [sep]) = none →
        (pyPartition f (root ++ [sep])).2.2 = [])
    ∧ (∀ f : PyStr, f ≠ [] → firstOccur f (root ++ [sep]) = none →
        (pyPartition f (root ++ [sep])).2.2 ≠ f) := by
  refine ⟨?_, ?_, ?_⟩
  · unfold find_proto_files
    refine List.map_congr_left (fun f _ => ?_)
    rcases h : firstOccur f (root ++ [sep]) with _ | i
    · simp [pyPartition, h]
    · simp [pyPartition, h]
  · intro f _ h
    exact pyPartition_third_of_none h
  · intro f hf h
    rw [pyPartition_third_of_none h]
    exact fun hcon => hf hcon.symm

/-- Claim C10 witness: with root `zz`, the discovered path `r/x.proto`
contains no occurrence of `zz/` and is rewritten to the empty string, which
differs from the path itself. -/
theorem c10_rewrite_witness :
    (pyPartition ("r/x.proto".toList) ("zz".toList ++ [sep])).2.2 = []
    ∧ (pyPartition ("r/x.proto".toList) ("zz".toList ++ [sep])).2.2
        ≠ "r/x.proto".toList :=
  ⟨(c10_rewrite_after_first_occurrence_anywhere
      [["r".toList, "x.proto".toList]] ("r".toList) false ("zz".toList)).2.1
      ("r/x.proto".toList) (by decide) (by decide),
   (c10_rewrite_after_first_occurrence_anywhere
      [["r".toList, "x.proto".toList]] ("r".toList) false ("zz".toList)).2.2
      ("r/x.proto".toList) (by decide) (by decide)⟩

/-- Claim C3 counterexample: with candidates `["a/b"]` and source directory
`a/bc`, the computed root `a/b` is a string-prefix of the source (so the
configuration passes the line-99 check), yet the discovered file
`a/bc/f.proto` is rewritten to the empty string — which is NOT the result of
removing `a/b` plus one separator from its front, since `a/b/` followed by
the empty string is not `a/bc/f.proto`. -/
theorem c3_counterexample_not_front_removal :
    compute_proto_root_path ("a/bc".toList) ["a/b".toList] [] = "a/b".toList
    ∧ strStarts ("a/b".toList) ("a/bc".toList) = true
    ∧ find_proto_files [["a".toList, "bc".toList, "f.proto".toList]]
        ("a/bc".toList) false ("a/b".toList) = [[]]
    ∧ ¬ (("a/b".toList ++ [sep]) ++ ([] : PyStr) = "a/bc/f.proto".toList) := by
  decide

/-- Claim C3 as amended: each discovered path is rewritten to the part after
the first occurrence of the root path plus one separator (the empty string
when there is none); whenever the discovered path begins with root-plus-
separator, this coincides with removing that string from the front; in
particular, with candidates `["a/b", "x/y"]` and source directory `a/b/c`,
the resolved root is `a/b` and the discovered file `a/b/c/d/foo.proto` is
rewritten to `c/d/foo.proto`. -/
theorem c3_amended_strip_from_front (fs : List (List PyStr)) (src : PyStr)
    (recurse : Bool) (root : PyStr) :
    find_proto_files fs src recurse root
      = (globFiles fs src recurse).map (fun f => (pyPartition f (root ++ [sep])).2.2)
    ∧ (∀ f : PyStr, strStarts (root ++ [sep]) f = true →
        (root ++ [sep]) ++ (pyPartition f (root ++ [sep])).2.2 = f)
    ∧ compute_proto_root_path ("a/b/c".toList) ["a/b".toList, "x/y".toList] []
        = "a/b".toList
    ∧ find_proto_files
        [["a".toList, "b".toList, "c".toList, "d".toList, "foo.proto".toList]]
        ("a/b/c".toList) true ("a/b".toList)
        = ["c/d/foo.proto".toList] := by
  refine ⟨rfl, ?_, by decide, by decide⟩
  intro f hf
  obtain ⟨t, ht⟩ := strStarts_iff.mp hf
  rw [pyPartition_third_of_some (firstOccur_zero hf), ← ht]
  simp

/-- Claim C3 amended witness: a concrete discovered path beginning with
root-plus-separator is recovered by prepending that string to its rewritten
entry. -/
theorem c3_amended_witness :
    ("a/b".toList ++ [sep])
      ++ (pyPartition ("a/b/c/d/foo.proto".toList) ("a/b".toList ++ [sep])).2.2
      = "a/b/c/d/foo.proto".toList :=
  (c3_amended_strip_from_front
      [["a".toList, "b".toList, "c".toList, "d".toList, "foo.proto".toList]]
      ("a/b/c".toList) true ("a/b".toList)).2.1
    ("a/b/c/d/foo.proto".toList) (by decide)

/-- Claim C2 evaluated on the failing input: with `recurse` enabled, source
directory `srcd` and files `srcd/a.proto`, `srcd/d1/b.proto` and
`srcd/d1/d2/c.proto` on disk, `find_proto_files` returns only the files at
depth one and two; the depth-three file is missing, because the code calls
`glob.glob` on the `**` pattern WITHOUT `recursive=True`, so `**` matches
exactly one directory component. -/
theorem c2_recursion_misses_depth_three_files :
    find_proto_files
      [["srcd".toList, "a.proto".toList],
       ["srcd".toList, "d1".toList, "b.proto".toList],
       ["srcd".toList, "d1".toList, "d2".toList, "c.proto".toList]]
      ("srcd".toList) true ("srcd".toList)
      = ["a.proto".toList, "d1/b.proto".toList]
    ∧ "d1/d2/c.proto".toList ∉
        find_proto_files
          [["srcd".toList, "a.proto".toList],
           ["srcd".toList, "d1".toList, "b.proto".toList],
           ["srcd".toList, "d1".toList, "d2".toList, "c.proto".toList]]
          ("srcd".toList) true ("srcd".toList) := by
  decide

/-- Claim C8: with the recurse flag disabled, `find_proto_files` returns only
(rewritten) `.proto` files that are direct children of the source directory,
and its result is unchanged by any additional files that are not direct
children of the source directory. -/
theorem c8_norecurse_only_direct_children
    (fs fs2 : List (List PyStr)) (src root : PyStr) :
    (∀ e ∈ find_proto_files fs src false root,
        ∃ n : PyStr, dirComps src ++ [n] ∈ fs ∧ matchProtoName n = true ∧
          e = (pyPartition (pyJoin src n) (root ++ [sep])).2.2)
    ∧ ((∀ g ∈ fs2, ∀ n : PyStr, g ≠ dirComps src ++ [n]) →
        find_proto_files (fs ++ fs2) src false root
          = find_proto_files fs src false root) := by
  constructor
  · intro e he
    simp only [find_proto_files, globFiles, Bool.false_eq_true, if_false,
      List.append_nil, List.mem_map] at he
    obtain ⟨f, hf, he⟩ := he
    obtain ⟨n, hmem, hmatch, hf2⟩ := globDirect_mem_iff.mp hf
    exact ⟨n, hmem, hmatch, by rw [← he, hf2]⟩
  · intro h
    simp only [find_proto_files, globFiles, Bool.false_eq_true, if_false,
      List.append_nil]
    have hnil : globDirect fs2 src = [] :=
      List.filterMap_eq_nil_iff.mpr (fun g hg => globDirectEntry_none (h g hg))
    rw [globDirect, globDirect, List.filterMap_append]
    rw [show List.filterMap (globDirectEntry src) fs2 = [] from hnil, List.append_nil]

/-- Claim C8 witness: with source `s`, the file `s/x.proto` is reported as a
direct child, and adding the deeper file `s/d/y.proto` leaves the
non-recursive result unchanged. -/
theorem c8_norecurse_witness :
    (∃ n : PyStr, dirComps ("s".toList) ++ [n] ∈ [["s".toList, "x.proto".toList]]
        ∧ matchProtoName n = true
        ∧ "x.proto".toList = (pyPartition (pyJoin ("s".toList) n)
            ("s".toList ++ [sep])).2.2)
    ∧ find_proto_files
        ([["s".toList, "x.proto".toList]] ++ [["s".toList, "d".toList, "y.proto".toList]])
        ("s".toList) false ("s".toList)
      = find_proto_files [["s".toList, "x.proto".toList]] ("s".toList) false ("s".toList) :=
  ⟨(c8_norecurse_only_direct_children [["s".toList, "x.proto".toList]] []
      ("s".toList) ("s".toList)).1 ("x.proto".toList) (by decide),
   (c8_norecurse_only_direct_children [["s".toList, "x.proto".toList]]
      [["s".toList, "d".toList, "y.proto".toList]] ("s".toList) ("s".toList)).2
      (by
        intro g hg n
        rw [List.mem_singleton] at hg
        subst hg
        intro hEq
        have hlen := congrArg List.length hEq
        have hdc : dirComps ("s".toList) = ["s".toList] := by decide
        rw [hdc] at hlen
        simp at hlen)⟩

/-- Claim C4: `run_protoc`, as invoked by `generate_py_protobufs.run`,
assembles the process argument list as the executable, then one
`--proto_path=` flag for the resolved root followed by one per candidate
search-path directory, then the mode flag `--python_out=<output_dir>`, then
the root-relative file list, in exactly that order. -/
theorem c4_protoc_argv_order (env : Env) (st : Finalized) :
    gen_run env st
      = [resolveProtoc env st]
        ++ ((protoPathFlag ++ st.proto_root_path)
            :: st.proto_paths.map (fun x => protoPathFlag ++ x))
        ++ [protoPythonOut ++ st.output_dir]
        ++ st.proto_files := by
  simp [gen_run, run_protoc_argv]

/-- Claim C5: when the final source directory string does not begin with the
resolved root path, `finalize_options` fails with a `DistutilsOptionError`;
when it does begin with the resolved root, the source-not-under-root error is
never raised. -/
theorem c5_source_under_root_check (env : Env) (o : Options) :
    (strStarts (resolvedRoot env o) o.source_dir = false →
        ∃ e, finalize_options env o = Except.error e)
    ∧ (strStarts (resolvedRoot env o) o.source_dir = true →
        ∀ s r : PyStr, finalize_options env o
          ≠ Except.error (FinalizeError.sourceNotUnderRoot s r)) := by
  constructor
  · intro h
    unfold finalize_options
    by_cases h1 : env.isdir o.source_dir = false
    · rw [if_pos h1]; exact ⟨_, rfl⟩
    · rw [if_neg h1]
      by_cases h2 : env.isdir o.output_dir = false
      · rw [if_pos h2]; exact ⟨_, rfl⟩
      · rw [if_neg h2]
        by_cases h3 : incBad env o ≠ []
        · rw [if_pos h3]; exact ⟨_, rfl⟩
        · rw [if_neg h3]
          by_cases h4 : invalidProtoPaths env (mergedProtoPaths env o) ≠ []
          · rw [if_pos h4]; exact ⟨_, rfl⟩
          · rw [if_neg h4]
            by_cases h5 : invalidProtoPaths env o.extra_proto_paths ≠ []
            · rw [if_pos h5]; exact ⟨_, rfl⟩
            · rw [if_neg h5]
              by_cases h6 : env.isdir (resolvedRoot env o) = false
              · rw [if_pos h6]; exact ⟨_, rfl⟩
              · rw [if_neg h6, if_pos h]
                exact ⟨_, rfl⟩
  · intro h s r hcon
    unfold finalize_options at hcon
    by_cases h1 : env.isdir o.source_dir = false
    · rw [if_pos h1] at hcon; simp at hcon
    · rw [if_neg h1] at hcon
      by_cases h2 : env.isdir o.output_dir = false
      · rw [if_pos h2] at hcon; simp at hcon
      · rw [if_neg h2] at hcon
        by_cases h3 : incBad env o ≠ []
        · rw [if_pos h3] at hcon; simp at hcon
        · rw [if_neg h3] at hcon
          by_cases h4 : invalidProtoPaths env (mergedProtoPaths env o) ≠ []
          · rw [if_pos h4] at hcon; simp at hcon
          · rw [if_neg h4] at hcon
            by_cases h5 : invalidProtoPaths env o.extra_proto_paths ≠ []
            · rw [if_pos h5] at hcon; simp at hcon
            · rw [if_neg h5] at hcon
              by_cases h6 : env.isdir (resolvedRoot env o) = false
              · rw [if_pos h6] at hcon; simp at hcon
              · rw [if_neg h6, if_neg (by simp [h])] at hcon
                simp at hcon

/-- Claim C5 witness: with an explicit root `zz` over source `s`, option
finalization errors; with the computed root `s` over source `s`, the
source-not-under-root error is impossible. -/
theorem c5_source_under_root_witness :
    (∃ e, finalize_options envAll
        { oDefault with proto_root_path := some ("zz".toList) } = Except.error e)
    ∧ (∀ s r : PyStr, finalize_options envAll oDefault
        ≠ Except.error (FinalizeError.sourceNotUnderRoot s r)) :=
  ⟨(c5_source_under_root_check envAll
      { oDefault with proto_root_path := some ("zz".toList) }).1 (by decide),
   (c5_source_under_root_check envAll oDefault).2 (by decide)⟩

/-- Claim C6: when any configured search-path list (include_dirs,
proto_paths or extra_proto_paths) contains an entry that does not exist on
disk — a plain entry that is not a directory, or a `virtual=real` pair whose
real path does not exist — the pipeline stops at option finalization with a
`DistutilsOptionError` and never assembles the external-process argument
list. -/
theorem c6_invalid_search_path_errors (env : Env) (o : Options)
    (h : (∃ p ∈ mergedProtoPaths env o, entryInvalid env p = true)
       ∨ (∃ p ∈ o.extra_proto_paths, entryInvalid env p = true)
       ∨ (∃ d, mergedIncludeDirs env o = some d
            ∧ ∃ p ∈ d, entryInvalid env p = true)) :
    ∃ e, generate_py_pipeline env o = Except.error e := by
  have hfin : ∃ e, finalize_options env o = Except.error e := by
    unfold finalize_options
    by_cases h1 : env.isdir o.source_dir = false
    · rw [if_pos h1]; exact ⟨_, rfl⟩
    · rw [if_neg h1]
      by_cases h2 : env.isdir o.output_dir = false
      · rw [if_pos h2]; exact ⟨_, rfl⟩
      · rw [if_neg h2]
        by_cases h3 : incBad env o ≠ []
        · rw [if_pos h3]; exact ⟨_, rfl⟩
        · rw [if_neg h3]
          by_cases h4 : invalidProtoPaths env (mergedProtoPaths env o) ≠ []
          · rw [if_pos h4]; exact ⟨_, rfl⟩
          · rw [if_neg h4]
            by_cases h5 : invalidProtoPaths env o.extra_proto_paths ≠ []
            · rw [if_pos h5]; exact ⟨_, rfl⟩
            · exfalso
              have h3' : incBad env o = [] := not_ne_iff.mp h3
              have h4' : invalidProtoPaths env (mergedProtoPaths env o) = [] :=
                not_ne_iff.mp h4
              have h5' : invalidProtoPaths env o.extra_proto_paths = [] :=
                not_ne_iff.mp h5
              rcases h with ⟨p, hp, hinv⟩ | ⟨p, hp, hinv⟩ | ⟨d, hd, p, hp, hinv⟩
              · have : p ∈ invalidProtoPaths env (mergedProtoPaths env o) :=
                  List.mem_filter.mpr ⟨hp, hinv⟩
                rw [h4'] at this
                exact List.not_mem_nil p this
              · have : p ∈ invalidProtoPaths env o.extra_proto_paths :=
                  List.mem_filter.mpr ⟨hp, hinv⟩
                rw [h5'] at this
                exact List.not_mem_nil p this
              · have hbad : incBad env o = invalidProtoPaths env d := by
                  unfold incBad
                  rw [hd]
                have : p ∈ invalidProtoPaths env d :=
                  List.mem_filter.mpr ⟨hp, hinv⟩
                rw [← hbad, h3'] at this
                exact List.not_mem_nil p this
  obtain ⟨e, he⟩ := hfin
  exact ⟨e, by simp [generate_py_pipeline, gen_finalize, he]⟩

/-- Claim C6 witness: a proto_paths entry `bad` that is not a directory makes
the pipeline fail before any argument list is produced. -/
theorem c6_invalid_search_path_witness :
    ∃ e, generate_py_pipeline envSel
        { oDefault with proto_paths := ["bad".toList] } = Except.error e :=
  c6_invalid_search_path_errors envSel
    { oDefault with proto_paths := ["bad".toList] }
    (Or.inl (by decide))

/-- Claim C7: when the configuration is otherwise valid and zero input files
are discovered under the source directory, option finalization completes
normally (no error) and records the non-fatal warning. -/
theorem c7_zero_files_warn_not_error (env : Env) (o : Options)
    (h1 : env.isdir o.source_dir = true)
    (h2 : env.isdir o.output_dir = true)
    (h3 : incBad env o = [])
    (h4 : invalidProtoPaths env (mergedProtoPaths env o) = [])
    (h5 : invalidProtoPaths env o.extra_proto_paths = [])
    (h6 : env.isdir (resolvedRoot env o) = true)
    (h7 : strStarts (resolvedRoot env o) o.source_dir = true)
    (h8 : o.proto_files = none)
    (h9 : find_proto_files env.fs o.source_dir (o.recurse.getD true)
            (resolvedRoot env o) = []) :
    ∃ st, finalize_options env o = Except.ok st
      ∧ st.warned_no_files = true ∧ st.proto_files = [] := by
  have hfw : finalProtoFiles env o = ([], true) := by
    unfold finalProtoFiles
    rw [h8, h9]
    rfl
  refine ⟨{ source_dir := o.source_dir, output_dir := o.output_dir,
            proto_root_path := resolvedRoot env o,
            proto_paths := mergedProtoPaths env o,
            extra_proto_paths := o.extra_proto_paths,
            proto_files := (finalProtoFiles env o).1,
            recurse := o.recurse.getD true,
            protoc := (match o.protoc with | some p => some p | none => env.protoc_env),
            warned_no_files := (finalProtoFiles env o).2 }, ?_, ?_, ?_⟩
  · unfold finalize_options
    rw [if_neg (by simp [h1]), if_neg (by simp [h2]), if_neg (by simp [h3]),
      if_neg (by simp [h4]), if_neg (by simp [h5]), if_neg (by simp [h6]),
      if_neg (by simp [h7])]
  · simp [hfw]
  · simp [hfw]

/-- Claim C7 witness: an all-permissive environment with an empty disk and
the default options finalizes successfully with the zero-files warning set. -/
theorem c7_zero_files_witness :
    ∃ st, finalize_options envAll oDefault = Except.ok st
      ∧ st.warned_no_files = true ∧ st.proto_files = [] :=
  c7_zero_files_warn_not_error envAll oDefault (by decide) (by decide) (by decide)
    (by decide) (by decide) (by decide) (by decide) (by decide) (by decide)
